import Mathlib

/-!
Verification of the edge-functions registry (`src/lib/edge-functions/registry.mjs`).

The registry keeps an in-memory index of edge functions: declarations merged from
static configuration and build output, function/dependency path indexes derived
from a module graph, and rebuild triggering on file-system events.  External
collaborators (the bundler's `find`, `generateManifest`, the isolate runner and
the file watcher) are modelled as explicit inputs to the operations that consume
them.  JavaScript `Map` objects and plain objects used as dictionaries are
modelled as association lists with JS `Map.set` semantics (updating an existing
key in place, appending fresh keys at the end); JS regular expressions are
modelled by an abstract test function `String → String → Bool` taking the
pattern source and the candidate string.
-/

/-- An edge function: `{ name, path }` (registry.mjs, `EdgeFunction` typedef). -/
structure EdgeFunction where
  name : String
  path : String
deriving DecidableEq, Inhabited

/-- A declaration (`EdgeFunctionDeclaration` typedef).  The JS value is a duck-typed
object that always carries `function` and optionally `path`, `pattern` and
`excluded_patterns`; `Option` models key presence. -/
structure Declaration where
  function : String
  path : Option String
  pattern : Option String
  excluded_patterns : Option (List String)
deriving DecidableEq, Inhabited

/-- Lookup in a JS `Map` / dictionary-object modelled as an association list:
`m.get(k)` returns the value of the unique entry with key `k`, if any. -/
def jsMapGet {β : Type} (m : List (String × β)) (k : String) : Option β :=
  (m.find? fun kv => kv.1 == k).map (·.2)

/-- JS `m.set(k, v)`: update the entry with key `k` in place if present,
otherwise append `(k, v)` at the end (JS `Map` insertion-order semantics). -/
def jsMapSet {β : Type} : List (String × β) → String → β → List (String × β)
  | [], k, v => [(k, v)]
  | kv :: rest, k, v => if kv.1 == k then (k, v) :: rest else kv :: jsMapSet rest k v

/-- JS `new Map(entries)`: insert the entries in order (later values win for
duplicate keys). -/
def jsMapOfList {β : Type} (l : List (String × β)) : List (String × β) :=
  l.foldl (fun m kv => jsMapSet m kv.1 kv.2) []

/-- Shallow merge `{...a, ...b}` of two declarations: every key present in `b`
wins, keys only in `a` survive. -/
def shallowMergeDecl (a b : Declaration) : Declaration :=
  { function := b.function,
    path := b.path.orElse fun _ => a.path,
    pattern := b.pattern.orElse fun _ => a.pattern,
    excluded_patterns := b.excluded_patterns.orElse fun _ => a.excluded_patterns }

/-- One step of the `mergeDeclarations` loop: find the first declaration in the
accumulated list with the source declaration's function name (`findIndex`); merge
onto it in place if found, append the source declaration otherwise. -/
def mergeOne : List Declaration → Declaration → List Declaration
  | [], src => [src]
  | d :: ds, src =>
    if d.function == src.function then shallowMergeDecl d src :: ds
    else d :: mergeOne ds src

/-- A declaration is kept after merging iff it has a `path` or a `pattern` key
(`'path' in declaration || 'pattern' in declaration`). -/
def isRoutable (d : Declaration) : Bool :=
  d.path.isSome || d.pattern.isSome

/-- `mergeDeclarations()`: start from the config declarations, fold the source
declarations with `mergeOne`, then filter out non-routable declarations. -/
def mergeDeclarations (declarationsFromConfig declarationsFromSource : List Declaration) :
    List Declaration :=
  (declarationsFromSource.foldl mergeOne declarationsFromConfig).filter isRoutable

/-- The `code` object of a module dependency; `specifier` is `none` when the JS
value is not a string. -/
structure DependencyCode where
  specifier : Option String
deriving DecidableEq, Inhabited

/-- One dependency edge of a graph module; `code` is `none` when the JS key is
`undefined`. -/
structure ModuleDependency where
  code : Option DependencyCode
deriving DecidableEq, Inhabited

/-- A module of the dependency graph; an absent `dependencies` key is modelled
as the empty list (the code destructures with default `[]`). -/
structure GraphModule where
  specifier : String
  dependencies : List ModuleDependency
deriving DecidableEq, Inhabited

/-- The module graph returned by the isolate runner. -/
structure Graph where
  modules : List GraphModule
deriving DecidableEq, Inhabited

/-- Per-function configuration entry returned by the isolate runner and spread
into a source declaration. -/
structure FunctionConfig where
  path : Option String
  pattern : Option String
  excluded_patterns : Option (List String)
deriving DecidableEq, Inhabited

/-- The mutable registry state (the fields of `EdgeFunctionsRegistry` the
claims are about).  Build errors are modelled by their message string. -/
structure RegistryState where
  buildError : Option String
  declarationsFromConfig : List Declaration
  declarationsFromSource : List Declaration
  functionPaths : List (String × String)
  dependencyPaths : List (String × List String)
  functions : List EdgeFunction
deriving DecidableEq, Inhabited

/-- Modelled from Node's `url.fileURLToPath` restricted to plain POSIX
`file://` URLs (the only ones the registry compares): strip the 7-character
scheme prefix `file://`. -/
def fileURLToPath (url : String) : String :=
  url.drop 7

/-- Modelled JS `specifier.startsWith('file://')` for the 7-character literal
prefix, written with `String.take` so that it evaluates by kernel reduction. -/
def startsWithFileScheme (s : String) : Bool :=
  s.take 7 == "file://"

/-- Body of the `graph.modules.forEach` loop of `processGraph`: for a module
whose specifier is a `file://` URL resolving to a (truthy-named) function's own
file, append that function's name to the entry of every `file://` dependency. -/
def dependencyEdgesStep (functionPaths : List (String × String))
    (dp : List (String × List String)) (m : GraphModule) : List (String × List String) :=
  if !startsWithFileScheme m.specifier then dp
  else
    match jsMapGet functionPaths (fileURLToPath m.specifier) with
    | none => dp
    | some functionMatch =>
      if functionMatch == "" then dp
      else
        m.dependencies.foldl
          (fun dp dep =>
            match dep.code with
            | none => dp
            | some code =>
              match code.specifier with
              | none => dp
              | some s =>
                if !startsWithFileScheme s then dp
                else
                  let dependencyPath := fileURLToPath s
                  jsMapSet dp dependencyPath
                    ((jsMapGet dp dependencyPath).getD [] ++ [functionMatch]))
          dp

/-- `processGraph(graph)`: with no graph, warn and return (state unchanged);
otherwise rebuild `functionPaths` from the current functions and
`dependencyPaths` from the graph's `file://` dependency edges. -/
def processGraph (st : RegistryState) (graph : Option Graph) : RegistryState :=
  match graph with
  | none => st
  | some g =>
    let functionPaths := jsMapOfList (st.functions.map fun f => (f.path, f.name))
    let dependencyPaths := g.modules.foldl (dependencyEdgesStep functionPaths) []
    { st with dependencyPaths := dependencyPaths, functionPaths := functionPaths }

/-- The declaration `{ function: func.name, ...functionsConfig[index] }`. -/
def declarationOfFunctionConfig (name : String) (cfg : FunctionConfig) : Declaration :=
  { function := name, path := cfg.path, pattern := cfg.pattern,
    excluded_patterns := cfg.excluded_patterns }

/-- `functions.map((func, index) => ({ function: func.name, ...functionsConfig[index] }))`:
zip positionally; a missing configuration entry spreads as the empty object. -/
def zipDeclarationsFromSource : List EdgeFunction → List FunctionConfig → List Declaration
  | [], _ => []
  | f :: fs, [] =>
    { function := f.name, path := none, pattern := none, excluded_patterns := none } ::
      zipDeclarationsFromSource fs []
  | f :: fs, c :: cs => declarationOfFunctionConfig f.name c :: zipDeclarationsFromSource fs cs

/-- Outcome of one call to the `runIsolate` collaborator: it either throws, or
returns `{ success, functionsConfig, graph }`. -/
inductive IsolateOutcome where
  | throws (message : String)
  | returns (success : Bool) (functionsConfig : List FunctionConfig) (graph : Option Graph)
deriving DecidableEq, Inhabited

/-- `build(functions)`: on collaborator failure (thrown error or
`success: false`, the latter raising `new Error('Build error')`) record the
error in `buildError` and rethrow; on success clear `buildError`, replace
`declarationsFromSource` by the positional zip and process the graph.  Returns
the new state and the `Except` result seen by the caller. -/
def build (st : RegistryState) (functions : List EdgeFunction) (outcome : IsolateOutcome) :
    RegistryState × Except String Unit :=
  match outcome with
  | .throws message => ({ st with buildError := some message }, .error message)
  | .returns success functionsConfig graph =>
    if success then
      let st' := { st with buildError := none,
                           declarationsFromSource := zipDeclarationsFromSource functions functionsConfig }
      (processGraph st' graph, .ok ())
    else
      ({ st with buildError := some "Build error" }, .error "Build error")

/-- `handleFileChange(path)`: collect the names of functions impacted by the
changed path (`functionPaths` owner plus `dependencyPaths` dependents, dropping
JS-falsy names); skip when the set is empty and there is no outstanding build
error, otherwise rebuild the full current function list once (errors swallowed).
Returns the new state and the number of build invocations. -/
def handleFileChange (st : RegistryState) (path : String) (outcome : IsolateOutcome) :
    RegistryState × Nat :=
  let matchingFunctions :=
    ((jsMapGet st.functionPaths path).toList ++ (jsMapGet st.dependencyPaths path).getD []).filter
      fun name => !(name == "")
  if matchingFunctions.isEmpty && st.buildError.isNone then (st, 0)
  else ((build st st.functions outcome).1, 1)

/-- The `newFunctions` filter of `checkForAddedOrDeletedFunctions`: freshly
scanned functions not already present (by name and path) that have a config
declaration. -/
def newFunctionsOf (st : RegistryState) (functionsFound : List EdgeFunction) :
    List EdgeFunction :=
  functionsFound.filter fun func =>
    if st.functions.any fun existingFunc =>
        func.name == existingFunc.name && func.path == existingFunc.path then false
    else st.declarationsFromConfig.any fun declaration => declaration.function == func.name

/-- The `deletedFunctions` filter of `checkForAddedOrDeletedFunctions`:
previously known functions absent (by name and path) from the fresh scan. -/
def deletedFunctionsOf (st : RegistryState) (functionsFound : List EdgeFunction) :
    List EdgeFunction :=
  st.functions.filter fun existingFunc =>
    !(functionsFound.any fun func =>
        func.name == existingFunc.name && func.path == existingFunc.path)

/-- `checkForAddedOrDeletedFunctions()` with the finder's result and the
isolate outcome as inputs: compute the two diff sets, replace `functions`
unconditionally, and rebuild (errors swallowed) iff a set is non-empty.
Returns the new state and the number of build invocations. -/
def checkForAddedOrDeletedFunctions (st : RegistryState) (functionsFound : List EdgeFunction)
    (outcome : IsolateOutcome) : RegistryState × Nat :=
  let newFunctions := newFunctionsOf st functionsFound
  let deletedFunctions := deletedFunctionsOf st functionsFound
  let st' := { st with functions := functionsFound }
  if newFunctions.isEmpty && deletedFunctions.isEmpty then (st', 0)
  else ((build st' functionsFound outcome).1, 1)

/-- An environment variable as supplied to the registry constructor:
`{ value, sources }`. -/
structure EnvVariable where
  value : String
  sources : List String
deriving DecidableEq, Inhabited

/-- The condition of the `getEnvironmentVariables` loop:
`variable.sources.includes('ui') || ... includes('account') || ... includes('addons') || ... includes('internal')`. -/
def isIncludedSource (sources : List String) : Bool :=
  sources.contains "ui" || sources.contains "account" ||
    sources.contains "addons" || sources.contains "internal"

/-- `getEnvironmentVariables(envConfig)`: keep the variables one of whose
sources is `ui`, `account`, `addons` or `internal`, then force
`DENO_REGION = 'local'`. -/
def getEnvironmentVariables (envConfig : List (String × EnvVariable)) :
    List (String × String) :=
  let env := envConfig.foldl
    (fun env kv =>
      if isIncludedSource kv.2.sources then jsMapSet env kv.1 kv.2.value
      else env)
    []
  jsMapSet env "DENO_REGION" "local"

/-- A route entry of a generated manifest: owning function name and regex
source of the pattern. -/
structure RouteEntry where
  function : String
  pattern : String
deriving DecidableEq, Inhabited

/-- A generated manifest: pre-cache routes, post-cache routes and the
per-function `excluded_patterns` dictionary. -/
structure Manifest where
  routes : List RouteEntry
  post_cache_routes : List RouteEntry
  function_config : List (String × List String)
deriving DecidableEq, Inhabited

/-- `manifest.function_config[name]?.excluded_patterns.some(p => RegExp(p).test(urlPath))`:
a missing entry is not excluded. -/
def isExcluded (test : String → String → Bool) (manifest : Manifest)
    (name urlPath : String) : Bool :=
  match jsMapGet manifest.function_config name with
  | none => false
  | some excludedPatterns => excludedPatterns.any fun p => test p urlPath

/-- The `functionNames` computation of `matchURLPath`: concatenate pre- and
post-cache routes, keep those whose pattern matches and whose function is not
excluded for this URL, and project the function names. -/
def matchURLPathFunctionNames (test : String → String → Bool) (manifest : Manifest)
    (urlPath : String) : List String :=
  (((manifest.routes ++ manifest.post_cache_routes).filter fun route =>
        test route.pattern urlPath).filter fun route =>
      !isExcluded test manifest route.function urlPath).map (·.function)

/-- `matchURLPathAgainstOrphanedDeclarations(urlPath)`: regenerate a manifest
from the config declarations alone (pseudo-functions with empty paths), and
return the functions of routes that match the URL and have no backing function
file. -/
def matchURLPathAgainstOrphanedDeclarations (test : String → String → Bool)
    (generateManifest : List Declaration → List EdgeFunction → Manifest)
    (st : RegistryState) (urlPath : String) : List String :=
  let functions := st.declarationsFromConfig.map fun declaration =>
    ({ name := declaration.function, path := "" } : EdgeFunction)
  let manifest := generateManifest st.declarationsFromConfig functions
  ((manifest.routes ++ manifest.post_cache_routes).filter fun route =>
      if st.functions.any fun func => func.name == route.function then false
      else test route.pattern urlPath).map (·.function)

/-- `matchURLPath(urlPath)` with the manifest generator and the regex tester as
inputs: returns `(functionNames, orphanedDeclarations)`. -/
def matchURLPath (test : String → String → Bool)
    (generateManifest : List Declaration → List EdgeFunction → Manifest)
    (st : RegistryState) (urlPath : String) : List String × List String :=
  let manifest := generateManifest
    (mergeDeclarations st.declarationsFromConfig st.declarationsFromSource) st.functions
  (matchURLPathFunctionNames test manifest urlPath,
   matchURLPathAgainstOrphanedDeclarations test generateManifest st urlPath)

/-- Rendering of the specification's description of `mergeDeclarations`: a
source declaration is merged only when some CONFIG declaration shares its
function name, and is appended otherwise — regardless of previously appended
source declarations. -/
def mergeDeclarationsClaimSpec (cfg src : List Declaration) : List Declaration :=
  (src.foldl
    (fun decls s =>
      if cfg.any fun c => c.function == s.function then mergeOne decls s
      else decls ++ [s])
    cfg).filter isRoutable

/-- Amended merge step: look for the first declaration with the source's
function name in the whole accumulated list (config declarations plus
previously appended source declarations), merge onto it in place, else
append.  Stated with `findIdx?`/`set` rather than recursion. -/
def mergeStepAmendedSpec (decls : List Declaration) (s : Declaration) : List Declaration :=
  match decls.findIdx? fun d => d.function == s.function with
  | none => decls ++ [s]
  | some i => decls.set i (shallowMergeDecl (decls.getD i default) s)

/-- Amended rendering of the merge contract: fold the amended step over the
source declarations, then drop non-routable declarations. -/
def mergeDeclarationsAmendedSpec (cfg src : List Declaration) : List Declaration :=
  (src.foldl mergeStepAmendedSpec cfg).filter isRoutable

/-- The entry the `getEnvironmentVariables` loop contributes for one input
variable: its `(name, value)` pair when a source qualifies it, nothing
otherwise. -/
def pickEnvEntry (kv : String × EnvVariable) : Option (String × String) :=
  if isIncludedSource kv.2.sources then some (kv.1, kv.2.value) else none

/-- The collaborator call succeeded: it returned (rather than threw) and
reported `success: true`. -/
def isolateReportsSuccess : IsolateOutcome → Bool
  | .returns true _ _ => true
  | _ => false

/-- The edge a single dependency entry contributes, given the owning module's
function name: its `file://` code specifier converted to a path, or nothing. -/
def extractDependencyEdge (functionMatch : String) (dep : ModuleDependency) :
    Option (String × String) :=
  match dep.code with
  | none => none
  | some code =>
    match code.specifier with
    | none => none
    | some s =>
      if !startsWithFileScheme s then none
      else some (fileURLToPath s, functionMatch)

/-- The `(dependency path, function name)` pairs one graph module contributes
to `dependencyPaths`. -/
def moduleEdges (functionPaths : List (String × String)) (m : GraphModule) :
    List (String × String) :=
  if !startsWithFileScheme m.specifier then []
  else
    match jsMapGet functionPaths (fileURLToPath m.specifier) with
    | none => []
    | some functionMatch =>
      if functionMatch == "" then []
      else m.dependencies.filterMap (extractDependencyEdge functionMatch)

/-- Append one function name to the dependent-function list of one dependency
path. -/
def appendEdge (dp : List (String × List String)) (e : String × String) :
    List (String × List String) :=
  jsMapSet dp e.1 ((jsMapGet dp e.1).getD [] ++ [e.2])

/-- The specification-level dependency relation of claim C5: the graph has a
module whose specifier is a `file://` URL for `funcPath` with a `file://`
dependency edge to `depPath`. -/
def graphHasFileDependency (g : Graph) (funcPath depPath : String) : Prop :=
  ∃ m ∈ g.modules, startsWithFileScheme m.specifier = true ∧
    fileURLToPath m.specifier = funcPath ∧
    ∃ dep ∈ m.dependencies, ∃ c, dep.code = some c ∧
      ∃ s, c.specifier = some s ∧ startsWithFileScheme s = true ∧ fileURLToPath s = depPath

/-- Spec-side route admission of claim C6: the route's pattern matches the URL
and the URL matches none of the owning function's exclusion patterns from the
manifest's per-function configuration (an absent entry meaning no
exclusions). -/
def routeMatchesSpec (test : String → String → Bool) (manifest : Manifest)
    (urlPath : String) (route : RouteEntry) : Bool :=
  test route.pattern urlPath &&
    ((jsMapGet manifest.function_config route.function).getD []).all fun p => !test p urlPath

/-- Spec-side orphaned-route admission of claim C7: the route's pattern matches
the URL and no live function shares the route's owning function name. -/
def orphanedRouteSpec (test : String → String → Bool) (st : RegistryState)
    (urlPath : String) (route : RouteEntry) : Bool :=
  test route.pattern urlPath && st.functions.all fun f => !(f.name == route.function)

theorem jsMapGet_nil {β : Type} (k : String) :
    jsMapGet ([] : List (String × β)) k = none := rfl

theorem jsMapGet_cons {β : Type} (a : String × β) (m : List (String × β)) (k : String) :
    jsMapGet (a :: m) k = if a.1 == k then some a.2 else jsMapGet m k := by
  by_cases h : (a.1 == k)
  · simp [jsMapGet, List.find?_cons_of_pos _ h, h]
  · simp [jsMapGet, List.find?_cons_of_neg _ h, h]

theorem jsMapGet_eq_none_of_not_mem {β : Type} (m : List (String × β)) (k : String)
    (h : k ∉ m.map Prod.fst) : jsMapGet m k = none := by
  induction m with
  | nil => rfl
  | cons a m ih =>
    rw [jsMapGet_cons]
    have ha : ¬(a.1 == k) := by
      simp only [List.map_cons, List.mem_cons, not_or] at h
      simp [Ne.symm h.1]
    simp only [ha, if_false, Bool.false_eq_true]
    exact ih fun hk => h (by simp only [List.map_cons, List.mem_cons]; exact Or.inr hk)

theorem jsMapGet_set {β : Type} (m : List (String × β)) (k k' : String) (v : β) :
    jsMapGet (jsMapSet m k v) k' = if k == k' then some v else jsMapGet m k' := by
  induction m with
  | nil => simp [jsMapSet, jsMapGet_cons, jsMapGet_nil]
  | cons a m ih =>
    by_cases h : (a.1 == k) <;> by_cases h' : (k == k') <;>
      simp_all [jsMapSet, jsMapGet_cons]

theorem jsMapSet_fresh {β : Type} (m : List (String × β)) (k : String) (v : β)
    (h : k ∉ m.map Prod.fst) : jsMapSet m k v = m ++ [(k, v)] := by
  induction m with
  | nil => rfl
  | cons a m ih =>
    have ha : ¬(a.1 == k) := by
      simp only [List.map_cons, List.mem_cons, not_or] at h
      simp [Ne.symm h.1]
    simp only [jsMapSet, ha, if_false, Bool.false_eq_true, List.cons_append, List.cons.injEq,
      true_and]
    exact ih fun hk => h (by simp only [List.map_cons, List.mem_cons]; exact Or.inr hk)

theorem mergeOne_eq_amended_step (decls : List Declaration) (s : Declaration) :
    mergeOne decls s = mergeStepAmendedSpec decls s := by
  induction decls with
  | nil => rfl
  | cons d ds ih =>
    by_cases h : (d.function == s.function)
    · simp [mergeOne, mergeStepAmendedSpec, List.findIdx?_cons, h]
    · simp only [mergeOne, mergeStepAmendedSpec, List.findIdx?_cons, h, Bool.false_eq_true,
        if_false, ih]
      cases hfi : ds.findIdx? (fun d => d.function == s.function) with
      | none => simp [mergeStepAmendedSpec, hfi]
      | some i => simp [mergeStepAmendedSpec, hfi]

theorem mergeOne_append_of_no_match (pre rest : List Declaration) (s : Declaration)
    (hpre : ∀ d ∈ pre, (d.function == s.function) = false) :
    mergeOne (pre ++ rest) s = pre ++ mergeOne rest s := by
  induction pre with
  | nil => rfl
  | cons d ds ih =>
    have hd := hpre d (by simp)
    simp only [List.cons_append, mergeOne, hd, Bool.false_eq_true, if_false, List.append_eq]
    rw [ih fun x hx => hpre x (by simp [hx])]

/-- C1 (counterexample): with no config declarations and two source
declarations for the same function name, the code merges the second source
declaration onto the previously appended first one, while the claim says it
would be appended, predicting a two-element output. -/
theorem mergeDeclarations_c1_counterexample :
    mergeDeclarations []
        [⟨"x", some "/a", none, none⟩, ⟨"x", none, some "^/x", none⟩] =
      [⟨"x", some "/a", some "^/x", none⟩] ∧
    mergeDeclarationsClaimSpec []
        [⟨"x", some "/a", none, none⟩, ⟨"x", none, some "^/x", none⟩] =
      [⟨"x", some "/a", none, none⟩, ⟨"x", none, some "^/x", none⟩] ∧
    mergeDeclarations []
        [⟨"x", some "/a", none, none⟩, ⟨"x", none, some "^/x", none⟩] ≠
      mergeDeclarationsClaimSpec []
        [⟨"x", some "/a", none, none⟩, ⟨"x", none, some "^/x", none⟩] :=
  ⟨by decide, by decide, by decide⟩

/-- C1 (amended): `mergeDeclarations` returns every config declaration in its
original order; each source declaration is shallow-merged (source fields
winning) onto the first declaration with the same function name in the
accumulated list — config declarations plus previously appended source
declarations — at its existing position, and appended at the end when there is
none; declarations left with neither a path nor a pattern are removed. -/
theorem mergeDeclarations_amended_correct
    (declarationsFromConfig declarationsFromSource : List Declaration) :
    mergeDeclarations declarationsFromConfig declarationsFromSource =
      mergeDeclarationsAmendedSpec declarationsFromConfig declarationsFromSource := by
  unfold mergeDeclarations mergeDeclarationsAmendedSpec
  rw [funext fun decls => funext fun s => mergeOne_eq_amended_step decls s]

/-- C9: merging an empty source-declaration list returns the config
declarations unchanged and in their original order (each declaration being, per
the data model, a path- or a pattern-declaration, hence routable). -/
theorem mergeDeclarations_empty_source (declarationsFromConfig : List Declaration)
    (h : ∀ d ∈ declarationsFromConfig, isRoutable d = true) :
    mergeDeclarations declarationsFromConfig [] = declarationsFromConfig := by
  unfold mergeDeclarations
  simp only [List.foldl_nil]
  exact List.filter_eq_self.mpr h

/-- C9 witness: a concrete two-declaration config list is returned unchanged. -/
theorem mergeDeclarations_empty_source_witness :
    mergeDeclarations [⟨"f", some "/a", none, none⟩, ⟨"g", none, some "p", none⟩] [] =
      [⟨"f", some "/a", none, none⟩, ⟨"g", none, some "p", none⟩] :=
  mergeDeclarations_empty_source _ (by decide)

/-- C10: when the config list contains several declarations with the same
function name, a source declaration for that name merges only onto the first
(lowest-index) one; every later duplicate passes through unmodified and is kept
exactly when it is routable. -/
theorem mergeDeclarations_duplicate_config (pre post : List Declaration) (c s : Declaration)
    (hpre : ∀ d ∈ pre, d.function ≠ s.function)
    (hc : c.function = s.function) :
    mergeDeclarations (pre ++ c :: post) [s] =
      (pre ++ shallowMergeDecl c s :: post).filter isRoutable := by
  unfold mergeDeclarations
  simp only [List.foldl_cons, List.foldl_nil]
  rw [mergeOne_append_of_no_match pre (c :: post) s
    (fun d hd => beq_eq_false_iff_ne.mpr (hpre d hd))]
  simp [mergeOne, hc]

/-- C10 witness: two config declarations named `f`; the source declaration's
excluded patterns land on the first, the second survives untouched. -/
theorem mergeDeclarations_duplicate_config_witness :
    mergeDeclarations ([] ++ ⟨"f", some "/a", none, none⟩ :: [⟨"f", some "/b", none, none⟩])
        [⟨"f", none, none, some ["/e"]⟩] =
      [⟨"f", some "/a", none, some ["/e"]⟩, ⟨"f", some "/b", none, none⟩] :=
  (mergeDeclarations_duplicate_config [] [⟨"f", some "/b", none, none⟩]
      ⟨"f", some "/a", none, none⟩ ⟨"f", none, none, some ["/e"]⟩
      (by simp) rfl).trans (by decide)

theorem envFold_eq_filterMap (envConfig : List (String × EnvVariable))
    (acc : List (String × String))
    (h : (acc.map Prod.fst ++ envConfig.map Prod.fst).Nodup) :
    envConfig.foldl
        (fun env kv =>
          if isIncludedSource kv.2.sources then jsMapSet env kv.1 kv.2.value else env)
        acc =
      acc ++ envConfig.filterMap pickEnvEntry := by
  induction envConfig generalizing acc with
  | nil => simp
  | cons kv rest ih =>
    have hk : kv.1 ∉ acc.map Prod.fst := by
      intro hmem
      have hdisj := (List.nodup_append.mp h).2.2
      exact hdisj hmem (List.mem_cons_self _ _)
    by_cases hinc : isIncludedSource kv.2.sources
    · rw [List.foldl_cons]
      simp only [hinc, if_true]
      rw [jsMapSet_fresh acc kv.1 kv.2.value hk]
      rw [ih (acc ++ [(kv.1, kv.2.value)])
        (by simpa [List.append_assoc] using h)]
      simp [pickEnvEntry, hinc, List.append_assoc]
    · rw [List.foldl_cons]
      simp only [hinc, if_false, Bool.false_eq_true]
      rw [ih acc (((List.sublist_cons_self _ _).append_left _).nodup h)]
      simp [pickEnvEntry, hinc]

theorem jsMapGet_filterMap_env (envConfig : List (String × EnvVariable))
    (hkeys : (envConfig.map Prod.fst).Nodup) (key : String) :
    jsMapGet (envConfig.filterMap pickEnvEntry) key =
      match jsMapGet envConfig key with
      | none => none
      | some v => if isIncludedSource v.sources then some v.value else none := by
  induction envConfig with
  | nil => rfl
  | cons kv rest ih =>
    have hrest : (rest.map Prod.fst).Nodup := (List.nodup_cons.mp (by simpa using hkeys)).2
    have hhead : kv.1 ∉ rest.map Prod.fst := (List.nodup_cons.mp (by simpa using hkeys)).1
    by_cases hinc : isIncludedSource kv.2.sources
    · rw [show (kv :: rest).filterMap pickEnvEntry =
          (kv.1, kv.2.value) :: rest.filterMap pickEnvEntry by
        simp [List.filterMap_cons, pickEnvEntry, hinc]]
      rw [jsMapGet_cons, jsMapGet_cons]
      by_cases hk : (kv.1 == key)
      · simp [hk, hinc]
      · simp only [hk, if_false, Bool.false_eq_true]
        exact ih hrest
    · rw [show (kv :: rest).filterMap pickEnvEntry = rest.filterMap pickEnvEntry by
        simp [List.filterMap_cons, pickEnvEntry, hinc]]
      rw [jsMapGet_cons]
      by_cases hk : (kv.1 == key)
      · have hkey : key ∉ (rest.filterMap pickEnvEntry).map Prod.fst := by
          intro hmem
          obtain ⟨e, he, he1⟩ := List.mem_map.mp hmem
          obtain ⟨kv', hkv', hpick⟩ := List.mem_filterMap.mp he
          have : e.1 = kv'.1 := by
            unfold pickEnvEntry at hpick
            by_cases h2 : isIncludedSource kv'.2.sources
            · simp [h2] at hpick; rw [← hpick]
            · simp [h2] at hpick
          apply hhead
          rw [show kv.1 = key from by simpa using hk, ← he1, this]
          exact List.mem_map.mpr ⟨kv', hkv', rfl⟩
        rw [jsMapGet_eq_none_of_not_mem _ _ hkey]
        simp [hk, hinc]
      · simp only [hk, if_false, Bool.false_eq_true]
        exact ih hrest

/-- C8: a variable of the input mapping appears (with its value) in the derived
runtime environment iff one of its sources is `ui`, `account`, `addons` or
`internal`; the key `DENO_REGION` is always present with value `local`,
overriding any filtered-in variable of that name. -/
theorem getEnvironmentVariables_correct (envConfig : List (String × EnvVariable))
    (hkeys : (envConfig.map Prod.fst).Nodup) (key : String) :
    jsMapGet (getEnvironmentVariables envConfig) key =
      if key = "DENO_REGION" then some "local"
      else
        match jsMapGet envConfig key with
        | none => none
        | some v => if isIncludedSource v.sources then some v.value else none := by
  unfold getEnvironmentVariables
  rw [envFold_eq_filterMap envConfig [] (by simpa using hkeys)]
  rw [jsMapGet_set]
  rw [List.nil_append]
  by_cases hk : key = "DENO_REGION"
  · simp [hk]
  · have : ¬("DENO_REGION" == key) := by simp [Ne.symm hk]
    simp only [this, if_false, Bool.false_eq_true, hk]
    exact jsMapGet_filterMap_env envConfig hkeys key

/-- C8 witness: `sources: ["other"]` is excluded, `sources: ["account"]` is
included, and `DENO_REGION` is `local` even though the input carries a
conflicting `DENO_REGION`. -/
theorem getEnvironmentVariables_correct_witness :
    jsMapGet (getEnvironmentVariables
        [("A", ⟨"1", ["other"]⟩), ("B", ⟨"2", ["account"]⟩),
         ("DENO_REGION", ⟨"us-east-1", ["ui"]⟩)]) "A" = none ∧
    jsMapGet (getEnvironmentVariables
        [("A", ⟨"1", ["other"]⟩), ("B", ⟨"2", ["account"]⟩),
         ("DENO_REGION", ⟨"us-east-1", ["ui"]⟩)]) "B" = some "2" ∧
    jsMapGet (getEnvironmentVariables
        [("A", ⟨"1", ["other"]⟩), ("B", ⟨"2", ["account"]⟩),
         ("DENO_REGION", ⟨"us-east-1", ["ui"]⟩)]) "DENO_REGION" = some "local" := by
  refine ⟨?_, ?_, ?_⟩
  · rw [getEnvironmentVariables_correct _ (by decide) "A"]; decide
  · rw [getEnvironmentVariables_correct _ (by decide) "B"]; decide
  · rw [getEnvironmentVariables_correct _ (by decide) "DENO_REGION"]; decide

theorem processGraph_buildError (st : RegistryState) (g : Option Graph) :
    (processGraph st g).buildError = st.buildError := by cases g <;> rfl

theorem processGraph_declarationsFromSource (st : RegistryState) (g : Option Graph) :
    (processGraph st g).declarationsFromSource = st.declarationsFromSource := by
  cases g <;> rfl

theorem processGraph_declarationsFromConfig (st : RegistryState) (g : Option Graph) :
    (processGraph st g).declarationsFromConfig = st.declarationsFromConfig := by
  cases g <;> rfl

theorem processGraph_functions (st : RegistryState) (g : Option Graph) :
    (processGraph st g).functions = st.functions := by cases g <;> rfl

theorem build_fst_functions (st : RegistryState) (functions : List EdgeFunction)
    (outcome : IsolateOutcome) : (build st functions outcome).1.functions = st.functions := by
  cases outcome with
  | throws m => rfl
  | returns success fc g => cases success <;> simp [build, processGraph_functions]

/-- C2: when the isolate collaborator throws or reports `success: false`,
`build` records an error in `buildError` and rethrows it, leaving
`declarationsFromSource`, `functionPaths` and `dependencyPaths` untouched; when
it reports success, `build` clears `buildError`, replaces
`declarationsFromSource` with the input functions zipped positionally against
the returned configuration entries, and processes the returned graph. -/
theorem build_correct (st : RegistryState) (functions : List EdgeFunction)
    (outcome : IsolateOutcome) :
    (isolateReportsSuccess outcome = false →
      (build st functions outcome).1.declarationsFromSource = st.declarationsFromSource ∧
      (build st functions outcome).1.functionPaths = st.functionPaths ∧
      (build st functions outcome).1.dependencyPaths = st.dependencyPaths ∧
      ∃ e, (build st functions outcome).1.buildError = some e ∧
        (build st functions outcome).2 = Except.error e) ∧
    (∀ functionsConfig graph,
      outcome = IsolateOutcome.returns true functionsConfig graph →
      (build st functions outcome).1.buildError = none ∧
      (build st functions outcome).1.declarationsFromSource =
        zipDeclarationsFromSource functions functionsConfig ∧
      (build st functions outcome).1 =
        processGraph
          { st with buildError := none,
                    declarationsFromSource :=
                      zipDeclarationsFromSource functions functionsConfig }
          graph ∧
      (build st functions outcome).2 = Except.ok ()) := by
  cases outcome with
  | throws m =>
    refine ⟨fun _ => ⟨rfl, rfl, rfl, m, rfl, rfl⟩, fun fc g h => by cases h⟩
  | returns success fc g =>
    cases success with
    | false =>
      refine ⟨fun _ => ⟨rfl, rfl, rfl, "Build error", rfl, rfl⟩, fun fc' g' h => by cases h⟩
    | true =>
      refine ⟨fun h => by simp [isolateReportsSuccess] at h, fun fc' g' h => ?_⟩
      have hfc : fc = fc' := by cases h; rfl
      have hg : g = g' := by cases h; rfl
      subst hfc; subst hg
      refine ⟨?_, ?_, rfl, rfl⟩
      · exact processGraph_buildError _ _
      · exact processGraph_declarationsFromSource _ _

/-- C2 witness: a thrown build leaves the (empty) source declarations as they
were; a successful build installs the zipped declarations. -/
theorem build_correct_witness :
    (build ⟨none, [], [], [], [], []⟩ [⟨"a", "/a.ts"⟩]
        (IsolateOutcome.throws "boom")).1.declarationsFromSource = [] ∧
    (build ⟨none, [], [], [], [], []⟩ [⟨"a", "/a.ts"⟩]
        (IsolateOutcome.returns true [⟨some "/x", none, none⟩] none)).1.declarationsFromSource =
      [⟨"a", some "/x", none, none⟩] := by
  constructor
  · exact ((build_correct ⟨none, [], [], [], [], []⟩ [⟨"a", "/a.ts"⟩]
      (IsolateOutcome.throws "boom")).1 rfl).1
  · exact (((build_correct ⟨none, [], [], [], [], []⟩ [⟨"a", "/a.ts"⟩]
      (IsolateOutcome.returns true [⟨some "/x", none, none⟩] none)).2
      [⟨some "/x", none, none⟩] none rfl).2.1).trans (by decide)

/-- C3: a change to a path that is in neither `functionPaths` nor
`dependencyPaths` triggers no rebuild when there is no outstanding build error,
and exactly one rebuild — of the full current function list — when a previous
build failed. -/
theorem handleFileChange_correct (st : RegistryState) (path : String)
    (outcome : IsolateOutcome)
    (h1 : jsMapGet st.functionPaths path = none)
    (h2 : jsMapGet st.dependencyPaths path = none) :
    (st.buildError = none → handleFileChange st path outcome = (st, 0)) ∧
    (st.buildError ≠ none →
      (handleFileChange st path outcome).2 = 1 ∧
      (handleFileChange st path outcome).1 = (build st st.functions outcome).1) := by
  constructor
  · intro hb
    simp [handleFileChange, h1, h2, hb]
  · intro hb
    cases hc : st.buildError with
    | none => exact absurd hc hb
    | some e => exact ⟨by simp [handleFileChange, h1, h2, hc], by simp [handleFileChange, h1, h2, hc]⟩

/-- C3 witness: with empty indexes, a change to an unrelated path is a no-op
when `buildError` is clear and triggers one rebuild when it is set. -/
theorem handleFileChange_correct_witness :
    handleFileChange ⟨none, [], [], [], [], []⟩ "/p.ts"
        (IsolateOutcome.returns true [] none) = (⟨none, [], [], [], [], []⟩, 0) ∧
    (handleFileChange ⟨some "err", [], [], [], [], []⟩ "/p.ts"
        (IsolateOutcome.returns true [] none)).2 = 1 := by
  constructor
  · exact (handleFileChange_correct ⟨none, [], [], [], [], []⟩ "/p.ts"
      (IsolateOutcome.returns true [] none) rfl rfl).1 rfl
  · exact ((handleFileChange_correct ⟨some "err", [], [], [], [], []⟩ "/p.ts"
      (IsolateOutcome.returns true [] none) rfl rfl).2 (by simp)).1

/-- C4: `checkForAddedOrDeletedFunctions` computes `newFunctions` as the
freshly scanned functions absent (by name-path identity) from the previous list
and declared in the config, `deletedFunctions` as the previous functions absent
from the fresh scan, replaces `functions` with the fresh scan unconditionally,
and rebuilds — over the full fresh list — iff one of the two sets is
non-empty. -/
theorem checkForAddedOrDeletedFunctions_correct (st : RegistryState)
    (functionsFound : List EdgeFunction) (outcome : IsolateOutcome) :
    (∀ f, f ∈ newFunctionsOf st functionsFound ↔
      f ∈ functionsFound ∧
        (¬ ∃ g ∈ st.functions, g.name = f.name ∧ g.path = f.path) ∧
        ∃ d ∈ st.declarationsFromConfig, d.function = f.name) ∧
    (∀ f, f ∈ deletedFunctionsOf st functionsFound ↔
      f ∈ st.functions ∧ ¬ ∃ g ∈ functionsFound, g.name = f.name ∧ g.path = f.path) ∧
    (checkForAddedOrDeletedFunctions st functionsFound outcome).1.functions =
      functionsFound ∧
    checkForAddedOrDeletedFunctions st functionsFound outcome =
      (if newFunctionsOf st functionsFound = [] ∧ deletedFunctionsOf st functionsFound = []
       then ({ st with functions := functionsFound }, 0)
       else ((build { st with functions := functionsFound } functionsFound outcome).1, 1)) := by
  have hmain :
      checkForAddedOrDeletedFunctions st functionsFound outcome =
        (if newFunctionsOf st functionsFound = [] ∧ deletedFunctionsOf st functionsFound = []
         then ({ st with functions := functionsFound }, 0)
         else ((build { st with functions := functionsFound } functionsFound outcome).1, 1)) := by
    by_cases hn : newFunctionsOf st functionsFound = [] <;>
      by_cases hd : deletedFunctionsOf st functionsFound = [] <;>
        simp [checkForAddedOrDeletedFunctions, List.isEmpty_iff, hn, hd]
  refine ⟨?_, ?_, ?_, hmain⟩
  · intro f
    simp only [newFunctionsOf, List.mem_filter]
    constructor
    · rintro ⟨hmem, hpred⟩
      refine ⟨hmem, ?_, ?_⟩
      · intro ⟨g, hg, hname, hpath⟩
        have : st.functions.any fun existingFunc =>
            f.name == existingFunc.name && f.path == existingFunc.path := by
          exact List.any_eq_true.mpr ⟨g, hg, by simp [hname, hpath]⟩
        simp [this] at hpred
      · by_cases hex : st.functions.any fun existingFunc =>
            f.name == existingFunc.name && f.path == existingFunc.path
        · simp [hex] at hpred
        · simp only [hex, Bool.false_eq_true, if_false, List.any_eq_true] at hpred
          obtain ⟨d, hd, hdf⟩ := hpred
          exact ⟨d, hd, by simpa using hdf⟩
    · rintro ⟨hmem, hnone, d, hd, hdf⟩
      refine ⟨hmem, ?_⟩
      have hex : (st.functions.any fun existingFunc =>
          f.name == existingFunc.name && f.path == existingFunc.path) = false := by
        rw [List.any_eq_false]
        intro g hg
        simp only [Bool.and_eq_true, beq_iff_eq, not_and]
        intro h1 h2
        exact hnone ⟨g, hg, h1.symm, h2.symm⟩
      simp only [hex, Bool.false_eq_true, if_false, List.any_eq_true]
      exact ⟨d, hd, by simp [hdf]⟩
  · intro f
    simp only [deletedFunctionsOf, List.mem_filter, Bool.not_eq_eq_eq_not, Bool.not_true,
      List.any_eq_false]
    constructor
    · rintro ⟨hmem, hpred⟩
      refine ⟨hmem, ?_⟩
      intro ⟨g, hg, hname, hpath⟩
      have := hpred g hg
      simp [hname, hpath] at this
    · rintro ⟨hmem, hnone⟩
      refine ⟨hmem, ?_⟩
      intro g hg
      simp only [Bool.and_eq_true, beq_iff_eq, not_and]
      intro h1 h2
      exact hnone ⟨g, hg, h1, h2⟩
  · rw [hmain]
    by_cases hn : newFunctionsOf st functionsFound = [] ∧ deletedFunctionsOf st functionsFound = []
    · simp [hn]
    · simp only [hn, if_false]
      exact build_fst_functions _ _ _

/-- C4 witness: with previous functions `[a]`, a fresh scan `[a, b]` and a
config declaration for `b`, `newFunctions = [b]` and exactly one rebuild runs;
without a declaration for `b`, `newFunctions = []` and no rebuild runs. -/
theorem checkForAddedOrDeletedFunctions_correct_witness :
    (checkForAddedOrDeletedFunctions
        ⟨none, [⟨"b", some "/b", none, none⟩], [], [], [], [⟨"a", "/a.ts"⟩]⟩
        [⟨"a", "/a.ts"⟩, ⟨"b", "/b.ts"⟩] (IsolateOutcome.returns true [] none)).2 = 1 ∧
    (checkForAddedOrDeletedFunctions ⟨none, [], [], [], [], [⟨"a", "/a.ts"⟩]⟩
        [⟨"a", "/a.ts"⟩, ⟨"b", "/b.ts"⟩] (IsolateOutcome.returns true [] none)).2 = 0 := by
  constructor
  · rw [(checkForAddedOrDeletedFunctions_correct
      ⟨none, [⟨"b", some "/b", none, none⟩], [], [], [], [⟨"a", "/a.ts"⟩]⟩
      [⟨"a", "/a.ts"⟩, ⟨"b", "/b.ts"⟩] (IsolateOutcome.returns true [] none)).2.2.2]
    rw [if_neg (by decide)]
  · rw [(checkForAddedOrDeletedFunctions_correct ⟨none, [], [], [], [], [⟨"a", "/a.ts"⟩]⟩
      [⟨"a", "/a.ts"⟩, ⟨"b", "/b.ts"⟩] (IsolateOutcome.returns true [] none)).2.2.2]
    rw [if_pos (by decide)]

theorem dependencyEdgesStep_eq_foldl (functionPaths : List (String × String))
    (dp : List (String × List String)) (m : GraphModule) :
    dependencyEdgesStep functionPaths dp m =
      (moduleEdges functionPaths m).foldl appendEdge dp := by
  unfold dependencyEdgesStep moduleEdges
  by_cases h1 : (!startsWithFileScheme m.specifier)
  · simp [h1]
  · simp only [h1, Bool.false_eq_true, if_false]
    cases hfm : jsMapGet functionPaths (fileURLToPath m.specifier) with
    | none => simp
    | some functionMatch =>
      by_cases h2 : (functionMatch == "")
      · simp [h2]
      · simp only [h2, Bool.false_eq_true, if_false]
        induction m.dependencies generalizing dp with
        | nil => simp
        | cons dep deps ih =>
          rw [List.foldl_cons, List.filterMap_cons]
          cases hc : dep.code with
          | none => simpa [extractDependencyEdge, hc] using ih dp
          | some code =>
            cases hs : code.specifier with
            | none => simpa [extractDependencyEdge, hc, hs] using ih dp
            | some s =>
              by_cases h3 : (!startsWithFileScheme s)
              · simpa [extractDependencyEdge, hc, hs, h3] using ih dp
              · rw [show extractDependencyEdge functionMatch dep =
                    some (fileURLToPath s, functionMatch) by
                  simp [extractDependencyEdge, hc, hs, h3]]
                simp only [hc, hs, h3, Bool.false_eq_true, if_false, List.foldl_cons]
                exact ih (appendEdge dp (fileURLToPath s, functionMatch))

theorem foldl_dependencyEdgesStep_eq (functionPaths : List (String × String))
    (modules : List GraphModule) (dp : List (String × List String)) :
    modules.foldl (dependencyEdgesStep functionPaths) dp =
      (modules.flatMap (moduleEdges functionPaths)).foldl appendEdge dp := by
  induction modules generalizing dp with
  | nil => rfl
  | cons m ms ih =>
    rw [List.foldl_cons, List.flatMap_cons, List.foldl_append,
      dependencyEdgesStep_eq_foldl]
    exact ih _

theorem foldl_appendEdge_get (es : List (String × String))
    (dp : List (String × List String)) (k : String) :
    (jsMapGet (es.foldl appendEdge dp) k).getD [] =
      (jsMapGet dp k).getD [] ++ (es.filter fun e => e.1 == k).map (·.2) := by
  induction es generalizing dp with
  | nil => simp
  | cons e es ih =>
    rw [List.foldl_cons, ih]
    by_cases h : (e.1 == k)
    · have hk : e.1 = k := by simpa using h
      rw [show jsMapGet (appendEdge dp e) k = some ((jsMapGet dp e.1).getD [] ++ [e.2]) by
        unfold appendEdge; rw [jsMapGet_set]; simp [h]]
      simp [List.filter_cons, h, hk, List.append_assoc]
    · rw [show jsMapGet (appendEdge dp e) k = jsMapGet dp k by
        unfold appendEdge; rw [jsMapGet_set]; simp [h]]
      simp [List.filter_cons, h]

theorem mem_filter_map_snd (es : List (String × String)) (k n : String) :
    (n ∈ (es.filter fun e => e.1 == k).map (·.2)) ↔ (k, n) ∈ es := by
  constructor
  · intro h
    obtain ⟨e, he, he2⟩ := List.mem_map.mp h
    obtain ⟨hmem, hk⟩ := List.mem_filter.mp he
    have : e = (k, n) := by
      obtain ⟨e1, e2⟩ := e
      simp only [beq_iff_eq] at hk
      simp only at he2
      simp [hk, he2]
    rwa [this] at hmem
  · intro h
    exact List.mem_map.mpr ⟨(k, n), List.mem_filter.mpr ⟨h, by simp⟩, rfl⟩

theorem extractDependencyEdge_code_none (functionMatch : String) (dep : ModuleDependency)
    (h : dep.code = none) : extractDependencyEdge functionMatch dep = none := by
  unfold extractDependencyEdge; rw [h]

theorem extractDependencyEdge_specifier_none (functionMatch : String)
    (dep : ModuleDependency) (c : DependencyCode) (h : dep.code = some c)
    (h2 : c.specifier = none) : extractDependencyEdge functionMatch dep = none := by
  unfold extractDependencyEdge; simp [h, h2]

theorem extractDependencyEdge_specifier_some (functionMatch : String)
    (dep : ModuleDependency) (c : DependencyCode) (s : String) (h : dep.code = some c)
    (h2 : c.specifier = some s) :
    extractDependencyEdge functionMatch dep =
      if !startsWithFileScheme s then none else some (fileURLToPath s, functionMatch) := by
  unfold extractDependencyEdge; simp [h, h2]

theorem extractDependencyEdge_eq_some (functionMatch : String) (dep : ModuleDependency)
    (d n : String) :
    extractDependencyEdge functionMatch dep = some (d, n) ↔
      ((∃ c, dep.code = some c ∧ ∃ s, c.specifier = some s ∧
        startsWithFileScheme s = true ∧ fileURLToPath s = d) ∧ functionMatch = n) := by
  constructor
  · intro h
    cases hc : dep.code with
    | none => rw [extractDependencyEdge_code_none _ _ hc] at h; cases h
    | some code =>
      cases hs : code.specifier with
      | none => rw [extractDependencyEdge_specifier_none _ _ _ hc hs] at h; cases h
      | some s =>
        rw [extractDependencyEdge_specifier_some _ _ _ _ hc hs] at h
        by_cases h3 : startsWithFileScheme s
        · rw [if_neg (by simp [h3])] at h
          injection h with h
          exact ⟨⟨code, rfl, s, hs, h3, congrArg Prod.fst h⟩, congrArg Prod.snd h⟩
          
        · rw [if_pos (by simp [h3])] at h; cases h
  · rintro ⟨⟨c, hcode, s, hspec, hsw, hpath⟩, rfl⟩
    rw [extractDependencyEdge_specifier_some _ _ _ _ hcode hspec, if_neg (by simp [hsw]),
      hpath]

theorem mem_moduleEdges (functionPaths : List (String × String)) (m : GraphModule)
    (d n : String) :
    (d, n) ∈ moduleEdges functionPaths m ↔
      (startsWithFileScheme m.specifier = true ∧
        jsMapGet functionPaths (fileURLToPath m.specifier) = some n ∧ n ≠ "" ∧
        ∃ dep ∈ m.dependencies, ∃ c, dep.code = some c ∧
          ∃ s, c.specifier = some s ∧ startsWithFileScheme s = true ∧
            fileURLToPath s = d) := by
  by_cases h1 : startsWithFileScheme m.specifier
  · cases hfm : jsMapGet functionPaths (fileURLToPath m.specifier) with
    | none =>
      rw [show moduleEdges functionPaths m = [] by unfold moduleEdges; simp [h1, hfm]]
      simp [hfm]
    | some functionMatch =>
      by_cases h2 : functionMatch = ""
      · subst h2
        rw [show moduleEdges functionPaths m = [] by unfold moduleEdges; simp [h1, hfm]]
        simp only [List.not_mem_nil, false_iff, not_and]
        intro _ hsome hne
        injection hsome with hsome
        exact absurd hsome.symm hne
      · rw [show moduleEdges functionPaths m =
            m.dependencies.filterMap (extractDependencyEdge functionMatch) by
          unfold moduleEdges; simp [h1, hfm, beq_eq_false_iff_ne.mpr h2]]
        rw [List.mem_filterMap]
        constructor
        · rintro ⟨dep, hdep, hex⟩
          obtain ⟨⟨c, hcode, s, hspec, hsw, hpath⟩, hfmn⟩ :=
            (extractDependencyEdge_eq_some functionMatch dep d n).mp hex
          subst hfmn
          exact ⟨h1, rfl, h2, dep, hdep, c, hcode, s, hspec, hsw, hpath⟩
        · rintro ⟨-, hsome, hne, dep, hdep, c, hcode, s, hspec, hsw, hpath⟩
          have hfmn : functionMatch = n := by injection hsome
          refine ⟨dep, hdep, ?_⟩
          exact (extractDependencyEdge_eq_some functionMatch dep d n).mpr
            ⟨⟨c, hcode, s, hspec, hsw, hpath⟩, hfmn⟩
  · have h1b : startsWithFileScheme m.specifier = false := by simpa using h1
    rw [show moduleEdges functionPaths m = [] by unfold moduleEdges; simp [h1b]]
    simp [h1b]

theorem jsMapOfList_aux {β : Type} (l : List (String × β)) (acc : List (String × β))
    (h : (acc.map Prod.fst ++ l.map Prod.fst).Nodup) :
    l.foldl (fun m kv => jsMapSet m kv.1 kv.2) acc = acc ++ l := by
  induction l generalizing acc with
  | nil => simp
  | cons kv rest ih =>
    have hk : kv.1 ∉ acc.map Prod.fst := by
      intro hmem
      exact (List.nodup_append.mp h).2.2 hmem (List.mem_cons_self _ _)
    rw [List.foldl_cons, jsMapSet_fresh acc kv.1 kv.2 hk]
    rw [ih (acc ++ [(kv.1, kv.2)]) (by simpa [List.append_assoc] using h)]
    simp

theorem jsMapOfList_of_nodup {β : Type} (l : List (String × β))
    (h : (l.map Prod.fst).Nodup) : jsMapOfList l = l := by
  unfold jsMapOfList
  rw [jsMapOfList_aux l [] (by simpa using h)]
  simp

theorem jsMapGet_assoc_iff {β : Type} (l : List (String × β))
    (h : (l.map Prod.fst).Nodup) (k : String) (v : β) :
    jsMapGet l k = some v ↔ (k, v) ∈ l := by
  induction l with
  | nil => simp [jsMapGet_nil]
  | cons a rest ih =>
    have hh : a.1 ∉ rest.map Prod.fst ∧ (rest.map Prod.fst).Nodup := by
      rw [List.map_cons, List.nodup_cons] at h
      exact h
    rw [jsMapGet_cons, List.mem_cons]
    by_cases hk : (a.1 == k)
    · have hk' : a.1 = k := by simpa using hk
      simp only [hk, if_true, Option.some.injEq]
      constructor
      · intro hv
        left
        rw [← hk', ← hv]
      · rintro (heq | hmem)
        · rw [← heq]
        · exfalso
          apply hh.1
          rw [hk']
          exact List.mem_map.mpr ⟨(k, v), hmem, rfl⟩
    · simp only [hk, Bool.false_eq_true, if_false]
      rw [ih hh.2]
      constructor
      · exact fun hm => Or.inr hm
      · rintro (heq | hm)
        · exfalso
          apply hk
          rw [← heq]
          simp
        · exact hm

/-- C5: `processGraph` with an absent graph is a no-op; with a graph present it
rebuilds `functionPaths` to map each current function's file path to its name,
and rebuilds `dependencyPaths` so a file path maps to exactly the names of
functions whose own file has a `file://` dependency edge to it in the graph
(non-file dependencies ignored); a shared dependency yields every dependent
function's name.  Stated for well-formed function lists (distinct paths,
non-empty names). -/
theorem processGraph_correct (st : RegistryState) (g : Graph)
    (hpaths : (st.functions.map EdgeFunction.path).Nodup)
    (hnames : ∀ f ∈ st.functions, f.name ≠ "") :
    processGraph st none = st ∧
    (∀ p n, jsMapGet (processGraph st (some g)).functionPaths p = some n ↔
      ∃ f ∈ st.functions, f.path = p ∧ f.name = n) ∧
    (∀ d n, n ∈ (jsMapGet (processGraph st (some g)).dependencyPaths d).getD [] ↔
      ∃ f ∈ st.functions, f.name = n ∧ graphHasFileDependency g f.path d) := by
  have hkeys : ((st.functions.map fun f => (f.path, f.name)).map Prod.fst).Nodup := by
    simpa [List.map_map, Function.comp] using hpaths
  have hfp_get : ∀ p n,
      jsMapGet (st.functions.map fun f => (f.path, f.name)) p = some n ↔
        ∃ f ∈ st.functions, f.path = p ∧ f.name = n := by
    intro p n
    rw [jsMapGet_assoc_iff _ hkeys]
    constructor
    · intro hmem
      obtain ⟨f, hf, hfe⟩ := List.mem_map.mp hmem
      exact ⟨f, hf, congrArg Prod.fst hfe, congrArg Prod.snd hfe⟩
    · rintro ⟨f, hf, rfl, rfl⟩
      exact List.mem_map.mpr ⟨f, hf, rfl⟩
  refine ⟨rfl, ?_, ?_⟩
  · intro p n
    have hfp : (processGraph st (some g)).functionPaths =
        st.functions.map fun f => (f.path, f.name) :=
      jsMapOfList_of_nodup _ hkeys
    rw [hfp]
    exact hfp_get p n
  · intro d n
    have hdp : (processGraph st (some g)).dependencyPaths =
        g.modules.foldl
          (dependencyEdgesStep (jsMapOfList (st.functions.map fun f => (f.path, f.name))))
          [] := rfl
    rw [hdp, foldl_dependencyEdgesStep_eq, foldl_appendEdge_get,
      show (jsMapGet ([] : List (String × List String)) d).getD [] = [] from rfl,
      List.nil_append, mem_filter_map_snd, List.mem_flatMap]
    constructor
    · rintro ⟨m, hm, hdm⟩
      rw [mem_moduleEdges] at hdm
      obtain ⟨hsw, hget, hne, dep, hdep, c, hcode, s, hspec, hssw, hspath⟩ := hdm
      rw [jsMapOfList_of_nodup _ hkeys] at hget
      obtain ⟨f, hf, hfpath, hfname⟩ := (hfp_get _ n).mp hget
      exact ⟨f, hf, hfname,
        ⟨m, hm, hsw, hfpath.symm, dep, hdep, c, hcode, s, hspec, hssw, hspath⟩⟩
    · rintro ⟨f, hf, hfname, hghd⟩
      unfold graphHasFileDependency at hghd
      obtain ⟨m, hm, hsw, hfpath, dep, hdep, c, hcode, s, hspec, hssw, hspath⟩ := hghd
      refine ⟨m, hm, ?_⟩
      rw [mem_moduleEdges]
      refine ⟨hsw, ?_, hfname ▸ hnames f hf, dep, hdep, c, hcode, s, hspec, hssw, hspath⟩
      rw [jsMapOfList_of_nodup _ hkeys]
      exact (hfp_get _ n).mpr ⟨f, hf, hfpath.symm, hfname⟩

/-- C5 witness: a graph in which `dep.ts` is a `file://` dependency of both
function files puts both function names in the entry for `/dep.ts`. -/
theorem processGraph_correct_witness :
    "a" ∈ (jsMapGet (processGraph
        ⟨none, [], [], [], [], [⟨"a", "/a.ts"⟩, ⟨"b", "/b.ts"⟩]⟩
        (some ⟨[⟨"file:///a.ts", [⟨some ⟨some "file:///dep.ts"⟩⟩]⟩,
                ⟨"file:///b.ts", [⟨some ⟨some "file:///dep.ts"⟩⟩]⟩]⟩)).dependencyPaths
      "/dep.ts").getD [] ∧
    "b" ∈ (jsMapGet (processGraph
        ⟨none, [], [], [], [], [⟨"a", "/a.ts"⟩, ⟨"b", "/b.ts"⟩]⟩
        (some ⟨[⟨"file:///a.ts", [⟨some ⟨some "file:///dep.ts"⟩⟩]⟩,
                ⟨"file:///b.ts", [⟨some ⟨some "file:///dep.ts"⟩⟩]⟩]⟩)).dependencyPaths
      "/dep.ts").getD [] := by
  constructor
  · exact ((processGraph_correct
      ⟨none, [], [], [], [], [⟨"a", "/a.ts"⟩, ⟨"b", "/b.ts"⟩]⟩
      ⟨[⟨"file:///a.ts", [⟨some ⟨some "file:///dep.ts"⟩⟩]⟩,
        ⟨"file:///b.ts", [⟨some ⟨some "file:///dep.ts"⟩⟩]⟩]⟩
      (by decide) (by decide)).2.2 "/dep.ts" "a").mpr
      ⟨⟨"a", "/a.ts"⟩, by decide, rfl,
        ⟨"file:///a.ts", [⟨some ⟨some "file:///dep.ts"⟩⟩]⟩, by decide, by decide, by decide,
        ⟨some ⟨some "file:///dep.ts"⟩⟩, by decide, ⟨some "file:///dep.ts"⟩, rfl,
        "file:///dep.ts", rfl, by decide, by decide⟩
  · exact ((processGraph_correct
      ⟨none, [], [], [], [], [⟨"a", "/a.ts"⟩, ⟨"b", "/b.ts"⟩]⟩
      ⟨[⟨"file:///a.ts", [⟨some ⟨some "file:///dep.ts"⟩⟩]⟩,
        ⟨"file:///b.ts", [⟨some ⟨some "file:///dep.ts"⟩⟩]⟩]⟩
      (by decide) (by decide)).2.2 "/dep.ts" "b").mpr
      ⟨⟨"b", "/b.ts"⟩, by decide, rfl,
        ⟨"file:///b.ts", [⟨some ⟨some "file:///dep.ts"⟩⟩]⟩, by decide, by decide, by decide,
        ⟨some ⟨some "file:///dep.ts"⟩⟩, by decide, ⟨some "file:///dep.ts"⟩, rfl,
        "file:///dep.ts", rfl, by decide, by decide⟩

theorem not_any_eq_all_not {α : Type} (l : List α) (p : α → Bool) :
    (!l.any p) = l.all fun a => !p a := by
  induction l with
  | nil => rfl
  | cons a l ih => simp [List.any_cons, List.all_cons, Bool.not_or, ih]

theorem not_isExcluded_eq_all (test : String → String → Bool) (manifest : Manifest)
    (name urlPath : String) :
    (!isExcluded test manifest name urlPath) =
      ((jsMapGet manifest.function_config name).getD []).all fun p => !test p urlPath := by
  unfold isExcluded
  cases jsMapGet manifest.function_config name with
  | none => rfl
  | some pats => exact not_any_eq_all_not pats _

theorem matchURLPathFunctionNames_eq_spec (test : String → String → Bool)
    (manifest : Manifest) (urlPath : String) :
    matchURLPathFunctionNames test manifest urlPath =
      ((manifest.routes ++ manifest.post_cache_routes).filter
        (routeMatchesSpec test manifest urlPath)).map (·.function) := by
  unfold matchURLPathFunctionNames
  rw [List.filter_filter]
  congr 1
  apply List.filter_congr
  intro r hr
  unfold routeMatchesSpec
  rw [← not_isExcluded_eq_all]
  exact Bool.and_comm _ _

/-- C6: `matchURLPath` returns as `functionNames` exactly the owning function
names, in route order (pre-cache routes before post-cache routes, duplicates
permitted), of the manifest routes whose pattern matches the URL path and whose
function has no exclusion pattern matching it. -/
theorem matchURLPath_functionNames_correct (test : String → String → Bool)
    (generateManifest : List Declaration → List EdgeFunction → Manifest)
    (st : RegistryState) (urlPath : String) :
    (matchURLPath test generateManifest st urlPath).1 =
      (let manifest := generateManifest
          (mergeDeclarations st.declarationsFromConfig st.declarationsFromSource) st.functions
       ((manifest.routes ++ manifest.post_cache_routes).filter
          (routeMatchesSpec test manifest urlPath)).map (·.function)) :=
  matchURLPathFunctionNames_eq_spec test _ urlPath

theorem orphanedRouteSpec_filter (test : String → String → Bool) (st : RegistryState)
    (urlPath : String) (routes : List RouteEntry) :
    (routes.filter fun route =>
        if st.functions.any fun func => func.name == route.function then false
        else test route.pattern urlPath) =
      routes.filter (orphanedRouteSpec test st urlPath) := by
  apply List.filter_congr
  intro r hr
  unfold orphanedRouteSpec
  rw [← not_any_eq_all_not]
  by_cases hany : (st.functions.any fun f => f.name == r.function)
  · simp [hany]
  · simp [hany]

/-- C7: the `orphanedDeclarations` of `matchURLPath` are computed from a
manifest generated from `declarationsFromConfig` alone, against pseudo-functions
with empty paths derived from those declarations, and are exactly the owning
function names of the routes whose pattern matches the URL path and whose
function name matches no live function. -/
theorem matchURLPath_orphanedDeclarations_correct (test : String → String → Bool)
    (generateManifest : List Declaration → List EdgeFunction → Manifest)
    (st : RegistryState) (urlPath : String) :
    (matchURLPath test generateManifest st urlPath).2 =
      (let functions := st.declarationsFromConfig.map fun declaration =>
          ({ name := declaration.function, path := "" } : EdgeFunction)
       let manifest := generateManifest st.declarationsFromConfig functions
       ((manifest.routes ++ manifest.post_cache_routes).filter
          (orphanedRouteSpec test st urlPath)).map (·.function)) := by
  exact congrArg (List.map fun r : RouteEntry => r.function)
    (orphanedRouteSpec_filter test st urlPath
      ((generateManifest st.declarationsFromConfig
          (st.declarationsFromConfig.map fun declaration =>
            ({ name := declaration.function, path := "" } : EdgeFunction))).routes ++
        (generateManifest st.declarationsFromConfig
          (st.declarationsFromConfig.map fun declaration =>
            ({ name := declaration.function, path := "" } : EdgeFunction))).post_cache_routes))
